import Mathlib

/-!
Verification of `project_collector.py` (a project-snapshot utility that
concatenates configured files into one Markdown document).

The development shallowly embeds the program's pure core:

* strings are Lean `String`s; physical lines are `List Char` obtained by
  splitting on the newline character, exactly as Python's `content.split('\n')`;
* the regular-expression matching done by `re.match(pattern, line, MULTILINE | DOTALL)`
  is modelled by a small regex language (`Reg`, matched with Brzozowski
  derivatives) together with a compiler `compileRegex` from the textual
  pattern subset actually used by the program (literals, escapes, `.`,
  character classes, `*`/`+`/`?` with optional non-greedy `?`, a leading `^`
  and a trailing `$`).  Since the lines being matched never contain a newline,
  a trailing `$` under `MULTILINE` is exactly an end-of-string anchor, and a
  pattern without `$` succeeds iff some prefix of the line matches
  (`re.match` anchors only at the start);
* Python dictionaries are association lists in insertion order;
* the filesystem is abstracted: a file presented to `process_file` is a record
  of its name, existence, decoded content, and the result of
  `filepath.relative_to(project_root)` (`none` models the `ValueError` raised
  when the file is not under the project root).
-/

/-- ASCII whitespace, as in Python's `string.whitespace` (the characters
`str.strip()` removes and that make a line "blank" for this program). -/
def pyIsSpace (c : Char) : Bool :=
  c = ' ' || c = '\t' || c = '\n' || c = '\r' || c = '\x0B' || c = '\x0C'

/-- A physical line is blank when `line.strip() == ''` in Python. -/
def isBlank (l : List Char) : Bool := l.all pyIsSpace

/-- A string is blank when `s.strip() == ''` in Python (`not s.strip()`). -/
def isBlankStr (s : String) : Bool := s.data.all pyIsSpace

/-- Python's `s.strip()` on a list of characters. -/
def pyStripL (l : List Char) : List Char :=
  ((l.dropWhile pyIsSpace).reverse.dropWhile pyIsSpace).reverse

/-- `content.split('\n')`: split a character list at every newline.
Always returns at least one (possibly empty) line. -/
def splitNl : List Char → List (List Char)
  | [] => [[]]
  | c :: cs =>
    match splitNl cs with
    | [] => [[]]
    | l :: ls => if c = '\n' then [] :: l :: ls else (c :: l) :: ls

/-- `'\n'.join(lines)`: rejoin lines with newlines. -/
def joinNl : List (List Char) → List Char
  | [] => []
  | [l] => l
  | l :: ls => l ++ '\n' :: joinNl ls

theorem splitNl_ne_nil (cs : List Char) : splitNl cs ≠ [] := by
  cases cs with
  | nil => simp [splitNl]
  | cons c cs =>
    simp only [splitNl]
    cases splitNl cs with
    | nil => simp
    | cons l ls =>
      by_cases h : c = '\n' <;> simp [h]

theorem joinNl_splitNl (cs : List Char) : joinNl (splitNl cs) = cs := by
  induction cs with
  | nil => rfl
  | cons c cs ih =>
    simp only [splitNl]
    cases hs : splitNl cs with
    | nil => exact absurd hs (splitNl_ne_nil cs)
    | cons l ls =>
      rw [hs] at ih
      by_cases h : c = '\n'
      · subst h
        simpa [joinNl] using ih
      · simp only [if_neg h]
        cases ls with
        | nil => simpa [joinNl] using ih
        | cons l2 ls2 => simpa [joinNl] using ih

/-! ## Regular expressions (the `re.match` fragment used by the program) -/

/-- Regular expressions over characters. `cls cs neg` is a character class
`[...]` (`neg` for `[^...]`); `any` is `.` under `DOTALL`. -/
inductive Reg where
  | nul
  | eps
  | any
  | chr (c : Char)
  | cls (cs : List Char) (neg : Bool)
  | alt (r s : Reg)
  | cat (r s : Reg)
  | star (r : Reg)

def nullable : Reg → Bool
  | .nul => false
  | .eps => true
  | .any => false
  | .chr _ => false
  | .cls _ _ => false
  | .alt r s => nullable r || nullable s
  | .cat r s => nullable r && nullable s
  | .star _ => true

def rderiv : Reg → Char → Reg
  | .nul, _ => .nul
  | .eps, _ => .nul
  | .any, _ => .eps
  | .chr c, a => if a = c then .eps else .nul
  | .cls cs neg, a => if (cs.contains a) ≠ neg then .eps else .nul
  | .alt r s, a => .alt (rderiv r a) (rderiv s a)
  | .cat r s, a => if nullable r then .alt (.cat (rderiv r a) s) (rderiv s a) else .cat (rderiv r a) s
  | .star r, a => .cat (rderiv r a) (.star r)

/-- Whole-word match: does `r` match exactly the character list `cs`? -/
def matchR (r : Reg) (cs : List Char) : Bool := nullable (cs.foldl rderiv r)

/-- Characters matched by `\s` (ASCII, as for the program's inputs). -/
def wsChars : List Char := [' ', '\t', '\n', '\r', '\x0B', '\x0C']

def digitChars : List Char := ['0', '1', '2', '3', '4', '5', '6', '7', '8', '9']

/-- An escaped atom `\c`.  Letter escapes other than the supported classes
are out of the modelled subset. -/
def escAtom (c : Char) : Option Reg :=
  if c = 's' then some (.cls wsChars false)
  else if c = 'S' then some (.cls wsChars true)
  else if c = 'd' then some (.cls digitChars false)
  else if c.isAlpha then none
  else some (.chr c)

/-- Parse one atom of a pattern: `.`, an escape, a character class, or a
literal character.  Metacharacters that cannot start an atom yield `none`. -/
def parseAtom : List Char → Option (Reg × List Char)
  | [] => none
  | '.' :: r => some (.any, r)
  | '\\' :: c :: r => (escAtom c).map (fun a => (a, r))
  | '\\' :: [] => none
  | '[' :: r =>
    let negAndRest : Bool × List Char :=
      match r with
      | '^' :: t => (true, t)
      | _ => (false, r)
    let body := negAndRest.2.takeWhile (fun c => c ≠ ']')
    let rest := negAndRest.2.dropWhile (fun c => c ≠ ']')
    match rest with
    | ']' :: r2 => if body = [] then none else some (.cls body negAndRest.1, r2)
    | _ => none
  | '$' :: _ => none
  | '^' :: _ => none
  | '*' :: _ => none
  | '+' :: _ => none
  | '?' :: _ => none
  | '(' :: _ => none
  | ')' :: _ => none
  | '|' :: _ => none
  | c :: r => some (.chr c, r)

/-- Apply a postfix repetition operator (`*`, `+`, `?`, each with an optional
non-greedy `?`) to an atom.  Greediness does not change whether a match
exists, so `x*?` is modelled as `x*`, etc. -/
def applyPostfix (a : Reg) : List Char → Reg × List Char
  | '*' :: '?' :: r => (.star a, r)
  | '*' :: r => (.star a, r)
  | '+' :: '?' :: r => (.cat a (.star a), r)
  | '+' :: r => (.cat a (.star a), r)
  | '?' :: '?' :: r => (.alt a .eps, r)
  | '?' :: r => (.alt a .eps, r)
  | r => (a, r)

/-- Parse the body of a pattern into a regex, reporting whether it ends with
the `$` anchor.  `fuel` bounds the number of atoms; each step consumes at
least one character, so `length + 1` fuel always suffices. -/
def parseBody : Nat → Reg → List Char → Option (Reg × Bool)
  | _, acc, [] => some (acc, false)
  | _, acc, ['$'] => some (acc, true)
  | 0, _, _ => none
  | fuel + 1, acc, cs =>
    match parseAtom cs with
    | none => none
    | some (a, rest) =>
      let ar := applyPostfix a rest
      parseBody fuel (.cat acc ar.1) ar.2

/-- A compiled pattern: the regex of its body and whether it is anchored at
the end by `$`. -/
structure CompiledPat where
  re : Reg
  anchEnd : Bool

/-- Compile a textual pattern (the subset of Python regex syntax this
program's patterns use).  A leading `^` is redundant under `re.match` and is
stripped; `none` means the pattern is outside the modelled subset. -/
def compileRegex (p : String) : Option CompiledPat :=
  let cs : List Char :=
    match p.data with
    | '^' :: t => t
    | l => l
  match parseBody (cs.length + 1) .eps cs with
  | none => none
  | some rb => some ⟨rb.1, rb.2⟩

/-- `re.match(pattern, line, MULTILINE | DOTALL)` as a Boolean, for a line
containing no newline: with a trailing `$` the whole line must match;
without it, some prefix of the line must match (`re.match` anchors only at
the start). -/
def reMatch (cp : CompiledPat) (line : List Char) : Bool :=
  if cp.anchEnd then matchR cp.re line
  else (List.range (line.length + 1)).any (fun n => matchR cp.re (line.take n))

/-- `re.match` on a textual pattern; `false` for patterns outside the
modelled subset. -/
def reMatchStr (p : String) (line : List Char) : Bool :=
  match compileRegex p with
  | none => false
  | some cp => reMatch cp line

/-- Does the pattern match the whole line (the reading "the line fully
matches the pattern, from line start across the whole line")? -/
def fullLineMatch (p : String) (line : List Char) : Bool :=
  match compileRegex p with
  | none => false
  | some cp => matchR cp.re line

/-! ## Python dictionaries as association lists (insertion order) -/

/-- `d.get(k)` / `k in d` membership plus value: first binding of `k`. -/
def dictGet {α : Type} (m : List (String × α)) (k : String) : Option α :=
  (m.find? (fun kv => kv.1 = k)).map (fun kv => kv.2)

/-- `d[k] = v`: replace the value in place when the key is present, append
the binding otherwise (Python dict insertion-order semantics). -/
def dictSet {α : Type} (m : List (String × α)) (k : String) (v : α) : List (String × α) :=
  if m.any (fun kv => kv.1 = k) then
    m.map (fun kv => if kv.1 = k then (k, v) else kv)
  else m ++ [(k, v)]

/-! ## Default tables (`get_default_*` in the source) -/

/-- Default file extension to language mappings. -/
def get_default_language_mappings : List (String × String) :=
  [(".py", "python"), (".pyw", "python"), (".pyx", "python"),
   (".rb", "ruby"), (".rbw", "ruby"),
   (".erb", "erb"), (".html.erb", "erb"), (".js.erb", "erb"), (".css.erb", "erb"),
   (".html", "html"), (".htm", "html"), (".jinja", "html"), (".jinja2", "html"),
   (".j2", "html"), (".django", "html"),
   (".js", "javascript"), (".jsx", "jsx"), (".ts", "typescript"), (".tsx", "tsx"),
   (".vue", "vue"),
   (".css", "css"), (".scss", "scss"), (".sass", "sass"), (".less", "less"),
   (".json", "json"), (".yaml", "yaml"), (".yml", "yaml"), (".toml", "toml"),
   (".ini", "ini"), (".cfg", "ini"), (".conf", "bash"),
   (".sh", "bash"), (".bash", "bash"), (".zsh", "zsh"), (".fish", "fish"),
   (".sql", "sql"),
   (".md", "markdown"), (".txt", "text"), (".rst", "rst"),
   ("dockerfile", "dockerfile"), (".dockerfile", "dockerfile"),
   (".xml", "xml"), (".csv", "csv"), (".log", "text")]

/-- Default patterns for files to exclude. -/
def get_default_exclude_patterns : List String :=
  [".keep", ".gitkeep", ".DS_Store", "Thumbs.db", ".tmp", ".temp"]

/-- Default comment patterns for different languages (raw regex sources,
apostrophes written as the escape `\x27`). -/
def get_default_comment_patterns : List (String × List String) :=
  [("python", ["^#.*$", "^\\s*\"\"\".*?\"\"\"\\s*$", "^\\s*\x27\x27\x27.*?\x27\x27\x27\\s*$"]),
   ("ruby", ["^#.*$", "^\\s*=begin.*?=end\\s*$"]),
   ("javascript", ["^//.*$", "^\\s*/\\*.*?\\*/\\s*$"]),
   ("css", ["^\\s*/\\*.*?\\*/\\s*$"]),
   ("html", ["^\\s*<!--.*?-->\\s*$"]),
   ("sql", ["^--.*$", "^\\s*/\\*.*?\\*/\\s*$"]),
   ("bash", ["^#.*$"]),
   ("yaml", ["^#.*$"]),
   ("ini", ["^[#;].*$"]),
   ("erb", ["^#.*$", "^\\s*<!--.*?-->\\s*$"])]

/-! ## Language classification (`get_language_for_file`) -/

/-- `pathlib.PurePath.suffix` of a file NAME: the part from the last dot,
empty when the dot is leading, trailing, or absent. -/
def pathSuffix (cs : List Char) : List Char :=
  match cs.reverse.findIdx? (fun c => c = '.') with
  | none => []
  | some j =>
    let i := cs.length - 1 - j
    if 0 < i ∧ i < cs.length - 1 then cs.drop i else []

/-- Python `s.lower()` on the characters of a string (ASCII case folding,
which covers every key the program compares). -/
def lowerChars (s : String) : List Char := s.data.map Char.toLower

/-- The condition of the compound-extension pass of `get_language_for_file`:
`full_name.endswith(ext.lower()) and len(ext) > 1` where `full_name` is the
lowercased file name. -/
def suffixMatch (name : String) (kv : String × String) : Bool :=
  (lowerChars kv.1).isSuffixOf (lowerChars name) && decide (1 < kv.1.length)

/-- `get_language_for_file(filepath, default_language, language_mappings)`:
the three passes of the source — compound/suffix scan over all keys of
length > 1 in table order, then exact lookup of the plain `path.suffix`,
then exact lookup of the whole lowercased name, else the default.
`name` is `filepath.name` (the final path component). -/
def get_language_for_file (name : String) (default_language : String)
    (language_mappings : List (String × String)) : String :=
  match language_mappings.find? (suffixMatch name) with
  | some kv => kv.2
  | none =>
    let extension : List Char := (pathSuffix name.data).map Char.toLower
    match language_mappings.find? (fun kv => kv.1.data = extension) with
    | some kv => kv.2
    | none =>
      match language_mappings.find? (fun kv => kv.1.data = lowerChars name) with
      | some kv => kv.2
      | none => default_language

/-! ## Exclusion (`should_exclude_file`) -/

/-- Python's substring test `pat in hay` on character lists. -/
def substrB (pat hay : List Char) : Bool :=
  (List.range (hay.length + 1)).any (fun i => pat.isPrefixOf (hay.drop i))

/-- `should_exclude_file(filepath, exclude_patterns)`: the lowercased file
name contains some lowercased pattern as a substring. -/
def should_exclude_file (name : String) (exclude_patterns : List String) : Bool :=
  exclude_patterns.any (fun p => substrB (lowerChars p) (lowerChars name))

/-! ## Comment stripping (`clean_content`) -/

/-- The patterns configured for a language: `comment_patterns.get(language, [])`. -/
def patsOf (comment_patterns : List (String × List String)) (language : String) :
    List String :=
  (dictGet comment_patterns language).getD []

/-- A line survives the stripping loop iff it matches no pattern or is blank. -/
def keepLine (patterns : List String) (line : List Char) : Bool :=
  !(patterns.any (fun p => reMatchStr p line)) || isBlank line

/-- The per-line loop of `clean_content`: keep a line when it matches no
pattern (`is_comment` stays false) or when it is blank; drop it otherwise. -/
def cleanLoop (patterns : List String) : List (List Char) → List (List Char)
  | [] => []
  | line :: rest =>
    let is_comment := patterns.any (fun p => reMatchStr p line)
    if !is_comment then line :: cleanLoop patterns rest
    else if isBlank line then line :: cleanLoop patterns rest
    else cleanLoop patterns rest

/-- `clean_content(content, language, comment_patterns)`: return the content
unchanged when the table is empty or has no patterns for the language;
otherwise split on newlines, run the per-line loop, and rejoin. -/
def clean_content (content : String) (language : String)
    (comment_patterns : List (String × List String)) : String :=
  if comment_patterns = [] then content
  else
    let patterns := patsOf comment_patterns language
    if patterns = [] then content
    else ⟨joinNl (cleanLoop patterns (splitNl content.data))⟩

/-! ## Configuration reading -/

/-- The sections of the parsed INI file that the program reads, each an
ordered list of (option, value) items when present.  `configparser` has
already lowercased option names. -/
structure ParsedIni where
  hasSettings : Bool
  settings : List (String × String)
  languageMappings : Option (List (String × String))
  filtering : Option (List (String × String))
  excludePatterns : Option (List (String × String))
  commentPatterns : Option (List (String × String))

/-- `os.path.expanduser`: expand a leading `~` to the home directory. -/
def expanduser (home : String) (s : String) : String :=
  if s = "~" then home
  else if s.startsWith "~/" then home ++ s.drop 1
  else s

/-- `read_ini_config(config_path)`: fail when the `Settings` section is
missing, otherwise return its items with `~` expanded in `project_root`. -/
def read_ini_config (ini : ParsedIni) (home : String) :
    Except String (List (String × String)) :=
  if ini.hasSettings = false then
    .error "Missing Settings section in config.ini file"
  else
    .ok (ini.settings.map (fun kv =>
      if kv.1 = "project_root" then (kv.1, expanduser home kv.2) else kv))

/-- `read_language_mappings(config_path)`: defaults overridden/extended by
the `LanguageMappings` section in item order. -/
def read_language_mappings (ini : ParsedIni) : List (String × String) :=
  match ini.languageMappings with
  | none => get_default_language_mappings
  | some items =>
    items.foldl (fun acc kv => dictSet acc kv.1 kv.2) get_default_language_mappings

/-- `configparser` boolean value strings (`ValueError`, i.e. `none`, otherwise). -/
def parseIniBool (s : String) : Option Bool :=
  let t : String := ⟨lowerChars s⟩
  if t = "1" || t = "yes" || t = "true" || t = "on" then some true
  else if t = "0" || t = "no" || t = "false" || t = "off" then some false
  else none

/-- `section.getboolean(key, default)`: the default when the key is absent,
else the parsed value (`none` models the raised `ValueError`). -/
def getbooleanD (items : List (String × String)) (key : String) (dflt : Bool) :
    Option Bool :=
  match dictGet items key with
  | none => some dflt
  | some v => parseIniBool v

/-- Split a `CommentPatterns` value on `|` or `,`, strip each piece, and
drop empty pieces — `[p.strip() for p in patterns_str.replace('|', ',').split(',') if p.strip()]`. -/
def splitPatterns (s : String) : List String :=
  (((s.replace "|" ",").splitOn ",").map (fun p => (⟨pyStripL p.data⟩ : String))).filter
    (fun p => p ≠ "")

/-- The dictionary `read_filtering_config` returns. -/
structure FilteringConfig where
  exclude_files : Bool
  clean_comments : Bool
  exclude_patterns : List String
  comment_patterns : List (String × List String)

/-- `read_filtering_config(config_path)`; `none` models the `ValueError`
raised by `getboolean` on a malformed flag value. -/
def read_filtering_config (ini : ParsedIni) : Option FilteringConfig :=
  let flags : Option (Bool × Bool) :=
    match ini.filtering with
    | none => some (true, true)
    | some items =>
      match getbooleanD items "exclude_files" true, getbooleanD items "clean_comments" true with
      | some ef, some cc => some (ef, cc)
      | _, _ => none
  match flags with
  | none => none
  | some fl =>
    let exclude_patterns :=
      match ini.excludePatterns with
      | none => get_default_exclude_patterns
      | some items =>
        let custom_patterns := items.map (fun kv => kv.2)
        if custom_patterns = [] then get_default_exclude_patterns else custom_patterns
    let comment_patterns :=
      match ini.commentPatterns with
      | none => get_default_comment_patterns
      | some items =>
        items.foldl (fun acc kv =>
          let patterns := splitPatterns kv.2
          if patterns = [] then acc else dictSet acc kv.1 patterns)
          get_default_comment_patterns
    some ⟨fl.1, fl.2, exclude_patterns, comment_patterns⟩

/-- `read_file_list`: the stripped, non-empty, non-`#` lines of `files.txt`. -/
def read_file_list (content : String) : List String :=
  (((splitNl content.data).map pyStripL).filter
    (fun l => l ≠ [] && !(l.head? = some '#'))).map (fun l => (⟨l⟩ : String))

/-! ## Processing one file (`process_file`) -/

/-- A file as `process_file` sees it: its name (final path component),
whether it exists, its decoded content, and the result of
`filepath.relative_to(project_root)` — `none` models the `ValueError`
raised when the file is not under the project root (caught as a per-file
read error). -/
structure FileInput where
  name : String
  fexists : Bool
  content : String
  relPath : Option String

/-- One section of the output document: relative path, fenced-block language
tag, and the (possibly cleaned) content. -/
structure OutSection where
  relPath : String
  language : String
  content : String

/-- The content `process_file` considers writing: cleaned when the
`clean_comments` flag is set, raw otherwise. -/
def cleaned_for (f : FileInput) (default_language : String)
    (language_mappings : List (String × String)) (cfg : FilteringConfig) : String :=
  if cfg.clean_comments then
    clean_content f.content (get_language_for_file f.name default_language language_mappings)
      cfg.comment_patterns
  else f.content

/-- `process_file`: `none` when nothing is written (missing, excluded,
blank after cleaning, or the per-file error from `relative_to`), otherwise
the section appended to the document. -/
def process_file (f : FileInput) (default_language : String)
    (language_mappings : List (String × String)) (cfg : FilteringConfig) :
    Option OutSection :=
  if f.fexists = false then none
  else if cfg.exclude_files && should_exclude_file f.name cfg.exclude_patterns then none
  else if isBlankStr (cleaned_for f default_language language_mappings cfg) then none
  else
    match f.relPath with
    | none => none
    | some rel =>
      some ⟨rel, get_language_for_file f.name default_language language_mappings,
        cleaned_for f default_language language_mappings cfg⟩

/-! ## Directory walk and orchestrator (`process_path`, `main`) -/

/-- What a `files.txt` entry resolves to on the filesystem: a single file, a
directory (with the files `rglob` visits, in traversal order), or nothing. -/
inductive FsNode where
  | file (f : FileInput)
  | dir (files : List FileInput)
  | missing

/-- The environment `main` runs in: which inputs exist, the parsed INI, the
`files.txt` content, and an abstract resolver for list entries (absorbing
the `expanduser` / project-root joining of `process_path`). -/
structure Env where
  projectDirExists : Bool
  configExists : Bool
  fileListExists : Bool
  ini : ParsedIni
  fileListContent : String
  home : String
  argLanguage : Option String
  projectRootExists : Bool
  resolve : String → FsNode

/-- `process_path`: process a file directly, every file under a directory,
or nothing for a missing path. -/
def process_path (env : Env) (entry : String) (default_language : String)
    (language_mappings : List (String × String)) (cfg : FilteringConfig) :
    List OutSection :=
  match env.resolve entry with
  | .file f => (process_file f default_language language_mappings cfg).toList
  | .dir fs => fs.foldr
      (fun f acc => (process_file f default_language language_mappings cfg).toList ++ acc) []
  | .missing => []

/-- The observable outcome of `main`: the exit code, whether the output
document was created (opened for writing), and the sections written. -/
structure MainOutcome where
  exitCode : Nat
  outputCreated : Bool
  sections : List OutSection

/-- `main()`: the sequence of checks and reads before the output file is
opened, then the walk.  Every failure before `open(output_path, 'w')`
yields exit code 1 with `outputCreated = false`. -/
def mainRun (env : Env) : MainOutcome :=
  if env.projectDirExists = false then ⟨1, false, []⟩
  else if env.configExists = false then ⟨1, false, []⟩
  else if env.fileListExists = false then ⟨1, false, []⟩
  else
    match read_ini_config env.ini env.home with
    | .error _ => ⟨1, false, []⟩
    | .ok config =>
      let default_language :=
        match env.argLanguage with
        | some l => l
        | none => (dictGet config "default_language").getD "text"
      let language_mappings := read_language_mappings env.ini
      match read_filtering_config env.ini with
      | none => ⟨1, false, []⟩
      | some filtering_config =>
        match dictGet config "project_root" with
        | none => ⟨1, false, []⟩
        | some _ =>
          if env.projectRootExists = false then ⟨1, false, []⟩
          else
            let files_and_dirs := read_file_list env.fileListContent
            ⟨0, true, files_and_dirs.foldr
              (fun e acc =>
                process_path env e default_language language_mappings filtering_config ++ acc) []⟩


/-! ## Helper lemmas -/

theorem keepLine_nil (l : List Char) : keepLine [] l = true := by
  simp [keepLine]

/-- The stripping loop keeps exactly the lines that match no pattern or are
blank. -/
theorem cleanLoop_eq_filter (patterns : List String) (ls : List (List Char)) :
    cleanLoop patterns ls = ls.filter (keepLine patterns) := by
  induction ls with
  | nil => rfl
  | cons line rest ih =>
    by_cases h : (patterns.any fun p => reMatchStr p line) = true
    · by_cases hb : isBlank line = true
      · simp [cleanLoop, List.filter_cons, keepLine, h, hb, ih]
      · simp [cleanLoop, List.filter_cons, keepLine, h, hb, ih]
    · simp [cleanLoop, List.filter_cons, keepLine, h, ih]

/-- No line produced by splitting on newlines contains a newline. -/
theorem splitNl_no_newline (cs : List Char) : ∀ l ∈ splitNl cs, '\n' ∉ l := by
  induction cs with
  | nil => intro l hl; simp [splitNl] at hl; simp [hl]
  | cons c cs ih =>
    intro l hl
    cases hs : splitNl cs with
    | nil => exact absurd hs (splitNl_ne_nil cs)
    | cons l1 ls1 =>
      have heq : splitNl (c :: cs) =
          if c = '\n' then [] :: l1 :: ls1 else (c :: l1) :: ls1 := by
        simp only [splitNl, hs]
      rw [heq] at hl
      by_cases hc : c = '\n'
      · rw [if_pos hc] at hl
        simp only [List.mem_cons] at hl
        rcases hl with h1 | h1 | h1
        · simp [h1]
        · subst h1
          exact ih l (hs ▸ List.mem_cons_self l ls1)
        · exact ih l (hs ▸ List.mem_cons_of_mem l1 h1)
      · rw [if_neg hc] at hl
        simp only [List.mem_cons] at hl
        rcases hl with h1 | h1
        · subst h1
          intro hmem
          simp only [List.mem_cons] at hmem
          rcases hmem with h2 | h2
          · exact hc h2.symm
          · exact ih l1 (hs ▸ List.mem_cons_self l1 ls1) h2
        · exact ih l (hs ▸ List.mem_cons_of_mem l1 h1)

theorem splitNl_of_no_newline (l : List Char) (h : '\n' ∉ l) : splitNl l = [l] := by
  induction l with
  | nil => rfl
  | cons c cs ih =>
    have hc : c ≠ '\n' := fun hh => h (hh ▸ List.mem_cons_self c cs)
    have hcs : '\n' ∉ cs := fun hh => h (List.mem_cons_of_mem c hh)
    simp only [splitNl, ih hcs, if_neg hc]

theorem splitNl_append_newline (l rest : List Char) (h : '\n' ∉ l) :
    splitNl (l ++ '\n' :: rest) = l :: splitNl rest := by
  induction l with
  | nil =>
    cases hs : splitNl rest with
    | nil => exact absurd hs (splitNl_ne_nil rest)
    | cons l1 ls1 => simp [splitNl, hs]
  | cons c cs ih =>
    have hc : c ≠ '\n' := fun hh => h (hh ▸ List.mem_cons_self c cs)
    have hcs : '\n' ∉ cs := fun hh => h (List.mem_cons_of_mem c hh)
    have heq := ih hcs
    cases hs : splitNl (cs ++ '\n' :: rest) with
    | nil => exact absurd hs (splitNl_ne_nil _)
    | cons l1 ls1 =>
      rw [hs] at heq
      have hl1 : l1 = cs := by
        injection heq with h1 _
      have hls1 : ls1 = splitNl rest := by
        injection heq with _ h2
      subst hl1
      subst hls1
      simp only [List.cons_append, splitNl, List.append_eq, hs, if_neg hc]

/-- Splitting is a left inverse of joining for a nonempty list of
newline-free lines. -/
theorem splitNl_joinNl (ls : List (List Char)) (hne : ls ≠ [])
    (h : ∀ l ∈ ls, '\n' ∉ l) : splitNl (joinNl ls) = ls := by
  induction ls with
  | nil => exact absurd rfl hne
  | cons l ls ih =>
    cases ls with
    | nil =>
      simp only [joinNl]
      exact splitNl_of_no_newline l (h l (List.mem_cons_self l []))
    | cons l2 ls2 =>
      have h1 : '\n' ∉ l := h l (List.mem_cons_self l (l2 :: ls2))
      have h2 : ∀ x ∈ l2 :: ls2, '\n' ∉ x := fun x hx => h x (List.mem_cons_of_mem l hx)
      simp only [joinNl]
      rw [splitNl_append_newline l (joinNl (l2 :: ls2)) h1, ih (by simp) h2]

/-- Joining blank lines yields a blank character list. -/
theorem joinNl_all_blank (ls : List (List Char)) (h : ∀ l ∈ ls, isBlank l = true) :
    isBlank (joinNl ls) = true := by
  induction ls with
  | nil => rfl
  | cons l ls ih =>
    cases ls with
    | nil => simpa [joinNl] using h l (List.mem_cons_self l [])
    | cons l2 ls2 =>
      have h1 : l.all pyIsSpace = true := h l (List.mem_cons_self l (l2 :: ls2))
      have h2 : ∀ x ∈ l2 :: ls2, isBlank x = true :=
        fun x hx => h x (List.mem_cons_of_mem l hx)
      have hrest : (joinNl (l2 :: ls2)).all pyIsSpace = true := ih h2
      simp [joinNl, isBlank, List.all_append, h1, hrest, pyIsSpace]

/-- Python's `in` substring test agrees with list-infix containment. -/
theorem substrB_iff (pat hay : List Char) : substrB pat hay = true ↔ pat <:+: hay := by
  unfold substrB
  rw [List.any_eq_true]
  constructor
  · rintro ⟨i, _, hp⟩
    rw [List.isPrefixOf_iff_prefix] at hp
    exact List.infix_iff_prefix_suffix.mpr ⟨hay.drop i, hp, List.drop_suffix i hay⟩
  · rintro ⟨s, t, rfl⟩
    refine ⟨s.length, ?_, ?_⟩
    · rw [List.mem_range]
      simp only [List.length_append]
      omega
    · rw [List.isPrefixOf_iff_prefix, List.append_assoc, List.drop_left]
      exact ⟨t, rfl⟩

/-! ## Claim theorems -/

/-- C10: `clean_content` is the identity on the content whenever the
comment-pattern table is empty, has no entry for the language, or maps the
language to an empty pattern list (the two early returns of the source). -/
theorem clean_content_identity (content language : String)
    (tbl : List (String × List String))
    (h : tbl = [] ∨ dictGet tbl language = none ∨ dictGet tbl language = some []) :
    clean_content content language tbl = content := by
  rcases h with h | h | h
  · simp [clean_content, h]
  · simp [clean_content, patsOf, h]
  · simp [clean_content, patsOf, h]

/-- Witness for `clean_content_identity`: the three hypothesis cases at
concrete inputs. -/
theorem clean_content_identity_wit :
    clean_content "# a\nb" "python" [] = "# a\nb"
    ∧ clean_content "# a\nb" "python" [("ruby", ["^#.*$"])] = "# a\nb"
    ∧ clean_content "# a\nb" "python" [("python", [])] = "# a\nb" :=
  ⟨clean_content_identity _ _ _ (Or.inl rfl),
   clean_content_identity _ _ _ (Or.inr (Or.inl (by decide))),
   clean_content_identity _ _ _ (Or.inr (Or.inr (by decide)))⟩

/-- C2 counterexample: with the configured pattern `#` the line `#x` is
dropped by `clean_content` (output becomes empty) although only the proper
prefix `#` of the line matches the pattern — the whole line does not match
and the line is not blank.  `re.match` anchors only at the start, it does
not require the match to span the whole line. -/
theorem clean_content_prefix_drop_cex :
    isBlank ("#x".data) = false
    ∧ fullLineMatch "#" ("#x".data) = false
    ∧ reMatchStr "#" ("#x".data) = true
    ∧ clean_content "#x" "python" [("python", ["#"])] = "" := by
  refine ⟨by decide, by decide, by decide, ?_⟩
  decide

/-- C2 (amended): a physical line is dropped by `clean_content` iff it is
not blank and some configured pattern for the language matches a prefix of
the line starting at the line start (`re.match` semantics) — equivalently,
the output is the newline-join of the lines that are blank or match no
pattern.  (Hypothesis: the configured patterns lie in the modelled regex
subset.) -/
theorem clean_content_keeps_iff (content language : String)
    (tbl : List (String × List String))
    (hv : ∀ p ∈ patsOf tbl language, (compileRegex p).isSome = true) :
    clean_content content language tbl
      = ⟨joinNl ((splitNl content.data).filter (keepLine (patsOf tbl language)))⟩
    ∧ ∀ l : List Char, keepLine (patsOf tbl language) l = false
        ↔ ((patsOf tbl language).any (fun p => reMatchStr p l) = true ∧ isBlank l = false) := by
  constructor
  · by_cases h0 : tbl = []
    · subst h0
      have hpats : patsOf ([] : List (String × List String)) language = [] := rfl
      rw [hpats]
      have : (splitNl content.data).filter (keepLine []) = splitNl content.data :=
        List.filter_eq_self.mpr (fun a _ => keepLine_nil a)
      rw [this, joinNl_splitNl]
      simp [clean_content]
    · by_cases h1 : patsOf tbl language = []
      · rw [h1]
        have : (splitNl content.data).filter (keepLine []) = splitNl content.data :=
          List.filter_eq_self.mpr (fun a _ => keepLine_nil a)
        rw [this, joinNl_splitNl]
        simp [clean_content, h0, h1]
      · simp only [clean_content, if_neg h0]
        rw [if_neg h1]
        rw [cleanLoop_eq_filter]
  · intro l
    cases h : (patsOf tbl language).any (fun p => reMatchStr p l) with
    | false => simp [keepLine, h]
    | true => cases hb : isBlank l <;> simp [keepLine, h, hb]

/-- Witness for `clean_content_keeps_iff` at a concrete input: the default
Python patterns on a content with a comment line, a blank line and a code
line. -/
theorem clean_content_keeps_iff_wit :
    clean_content "# c\n\nx = 1" "python" get_default_comment_patterns
      = ⟨joinNl ((splitNl ("# c\n\nx = 1".data)).filter
          (keepLine (patsOf get_default_comment_patterns "python")))⟩ :=
  (clean_content_keeps_iff "# c\n\nx = 1" "python" get_default_comment_patterns
    (by decide)).1

/-- C3: every blank (empty or whitespace-only) physical line of the input
appears unchanged and in order in the output of `clean_content`: the blank
lines of the input form a sublist of the output's physical lines (blank
lines are kept even when a pattern matches them).  (Hypothesis: the
configured patterns lie in the modelled regex subset.) -/
theorem clean_content_blank_preserved (content language : String)
    (tbl : List (String × List String))
    (hv : ∀ p ∈ patsOf tbl language, (compileRegex p).isSome = true) :
    List.Sublist ((splitNl content.data).filter isBlank)
      (splitNl (clean_content content language tbl).data)
    ∧ ∀ l ∈ splitNl content.data, isBlank l = true →
        l ∈ splitNl (clean_content content language tbl).data := by
  have hmain : List.Sublist ((splitNl content.data).filter isBlank)
      (splitNl (clean_content content language tbl).data) := by
    by_cases h0 : tbl = []
    · have hid : clean_content content language tbl = content := by simp [clean_content, h0]
      rw [hid]
      exact List.filter_sublist _
    · by_cases h1 : patsOf tbl language = []
      · have hid : clean_content content language tbl = content := by
          simp [clean_content, h0, h1]
        rw [hid]
        exact List.filter_sublist _
      · have hcc : clean_content content language tbl
            = ⟨joinNl ((splitNl content.data).filter (keepLine (patsOf tbl language)))⟩ := by
          simp only [clean_content, if_neg h0]
          rw [if_neg h1, cleanLoop_eq_filter]
        rw [hcc]
        have hblank_keep : ∀ l : List Char, isBlank l = true →
            keepLine (patsOf tbl language) l = true := by
          intro l hb
          simp [keepLine, hb]
        have hfe : (splitNl content.data).filter isBlank
            = ((splitNl content.data).filter (keepLine (patsOf tbl language))).filter isBlank := by
          rw [List.filter_filter]
          refine (List.filter_congr ?_).symm
          intro a _
          cases hb : isBlank a with
          | false => simp
          | true => simp [hblank_keep a hb]
        by_cases hcl0 : (splitNl content.data).filter (keepLine (patsOf tbl language)) = []
        · rw [hfe, hcl0]
          exact List.nil_sublist _
        · have hnl : ∀ l ∈ (splitNl content.data).filter (keepLine (patsOf tbl language)),
              '\n' ∉ l :=
            fun l hl => splitNl_no_newline content.data l (List.mem_of_mem_filter hl)
          have hrt : splitNl (joinNl ((splitNl content.data).filter
              (keepLine (patsOf tbl language))))
              = (splitNl content.data).filter (keepLine (patsOf tbl language)) :=
            splitNl_joinNl _ hcl0 hnl
          show List.Sublist ((splitNl content.data).filter isBlank)
            (splitNl (joinNl ((splitNl content.data).filter (keepLine (patsOf tbl language)))))
          rw [hrt, hfe]
          exact List.filter_sublist _
  refine ⟨hmain, ?_⟩
  intro l hl hb
  exact hmain.subset (List.mem_filter.mpr ⟨hl, hb⟩)

/-- Witness for `clean_content_blank_preserved` at a concrete input: the
blank middle line of the content survives cleaning. -/
theorem clean_content_blank_preserved_wit :
    ([] : List Char)
      ∈ splitNl (clean_content "# c\n\nx = 1" "python" get_default_comment_patterns).data :=
  (clean_content_blank_preserved "# c\n\nx = 1" "python" get_default_comment_patterns
    (by decide)).2 [] (by decide) (by decide)

/-- C1 counterexample: with a mapping table that lists the plain suffix
`.erb` before the compound suffix `.html.erb` (with different language
tags), the file `x.html.erb` — which ends in the configured compound suffix
`.html.erb`, whose plain final suffix `.erb` is also a mapped key — is
classified by the earlier plain-suffix entry, not by the compound entry:
the first pass of `get_language_for_file` scans every key of length > 1 in
table iteration order and stops at the first suffix match. -/
theorem get_language_compound_cex :
    get_language_for_file "x.html.erb" "text" [(".erb", "plain"), (".html.erb", "compound")]
      = "plain"
    ∧ ("plain" : String) ≠ "compound"
    ∧ suffixMatch "x.html.erb" (".html.erb", "compound") = true
    ∧ pathSuffix ("x.html.erb".data) = ".erb".data := by
  refine ⟨by decide, by decide, by decide, by decide⟩

/-- C1 (amended): `get_language_for_file` returns the language of the first
mapping entry, in table iteration order, whose key has length > 1 and is a
case-insensitive suffix of the file name; in particular a compound entry
wins exactly when no earlier such matching key precedes it in the table
(e.g. when the compound entry is listed before the plain-suffix entry). -/
theorem get_language_first_suffix_key (pre post : List (String × String))
    (kv : String × String) (name default_language : String)
    (hpre : ∀ x ∈ pre, suffixMatch name x = false)
    (hk : suffixMatch name kv = true) :
    get_language_for_file name default_language (pre ++ kv :: post) = kv.2 := by
  unfold get_language_for_file
  have hnone : pre.find? (suffixMatch name) = none :=
    List.find?_eq_none.mpr (fun x hx => by simp [hpre x hx])
  rw [List.find?_append, hnone]
  simp [List.find?_cons, hk]

/-- Witness for `get_language_first_suffix_key`: with the compound entry
listed first, `x.html.erb` is classified by the compound entry. -/
theorem get_language_first_suffix_key_wit :
    get_language_for_file "x.html.erb" "text"
      ([] ++ (".html.erb", "compound") :: [(".erb", "plain")]) = "compound" :=
  get_language_first_suffix_key [] [(".erb", "plain")] (".html.erb", "compound")
    "x.html.erb" "text" (fun x hx => absurd hx (List.not_mem_nil x)) (by decide)

/-- C4: `should_exclude_file` is true iff the lowercased file name contains
some lowercased configured pattern as a substring; when the `exclude_files`
flag is set, `process_file` writes no section for such a file; when the
flag is unset the exclusion patterns are never consulted (the result of
`process_file` does not depend on them). -/
theorem should_exclude_spec (name : String) (pats : List String) (f : FileInput)
    (d : String) (m : List (String × String)) (cfg : FilteringConfig) :
    (should_exclude_file name pats = true
      ↔ ∃ p ∈ pats, (lowerChars p) <:+: (lowerChars name))
    ∧ (cfg.exclude_files = true →
        should_exclude_file f.name cfg.exclude_patterns = true →
        process_file f d m cfg = none)
    ∧ (cfg.exclude_files = false → ∀ ps1 ps2 : List String,
        process_file f d m { cfg with exclude_patterns := ps1 }
          = process_file f d m { cfg with exclude_patterns := ps2 }) := by
  refine ⟨?_, ?_, ?_⟩
  · unfold should_exclude_file
    rw [List.any_eq_true]
    constructor
    · rintro ⟨p, hp, hs⟩
      exact ⟨p, hp, (substrB_iff _ _).mp hs⟩
    · rintro ⟨p, hp, hs⟩
      exact ⟨p, hp, (substrB_iff _ _).mpr hs⟩
  · intro hef hex
    unfold process_file
    by_cases h0 : f.fexists = false
    · rw [if_pos h0]
    · rw [if_neg h0, if_pos (by rw [hef, hex]; rfl)]
  · intro hef ps1 ps2
    unfold process_file
    simp only [hef, Bool.false_and, if_false]
    rfl

/-- Witness for `should_exclude_spec`: the default pattern `.tmp` excludes
`notes.TMP` when the flag is set, and the substring characterization holds
there. -/
theorem should_exclude_spec_wit :
    (∃ p ∈ get_default_exclude_patterns,
      (lowerChars p) <:+: (lowerChars "notes.TMP"))
    ∧ process_file ⟨"notes.TMP", true, "x", some "notes.TMP"⟩ "text" []
        ⟨true, false, get_default_exclude_patterns, []⟩ = none
    ∧ process_file ⟨"a.py", true, "x", some "a.py"⟩ "text" []
        ⟨false, false, [".py"], []⟩
      = process_file ⟨"a.py", true, "x", some "a.py"⟩ "text" []
        ⟨false, false, ["zzz"], []⟩ :=
  ⟨(should_exclude_spec "notes.TMP" get_default_exclude_patterns
      ⟨"notes.TMP", true, "x", some "notes.TMP"⟩ "text" []
      ⟨true, false, get_default_exclude_patterns, []⟩).1.mp (by decide),
   (should_exclude_spec "notes.TMP" get_default_exclude_patterns
      ⟨"notes.TMP", true, "x", some "notes.TMP"⟩ "text" []
      ⟨true, false, get_default_exclude_patterns, []⟩).2.1 rfl (by decide),
   (should_exclude_spec "a.py" [] ⟨"a.py", true, "x", some "a.py"⟩ "text" []
      ⟨false, false, [".py"], []⟩).2.2 rfl [".py"] ["zzz"]⟩

/-- C5 counterexample: for the content consisting of two blank lines
(`"\n"`) with a configured pattern `.*` that matches every line, every
physical line matches a pattern, yet stripping does not yield empty
content: the blank lines are preserved and the output is `"\n"` (which is
whitespace-only, so the file is still omitted, but not empty). -/
theorem strip_all_match_cex :
    (∀ l ∈ splitNl ("\n".data), reMatchStr ".*" l = true)
    ∧ clean_content "\n" "python" [("python", [".*"])] = "\n"
    ∧ ("\n" : String) ≠ "" := by
  refine ⟨by decide, by decide, by decide⟩

/-- C5 (amended): whenever the content considered by `process_file` is
blank (empty or whitespace-only) after the optional stripping step, no
section is written; and when stripping is enabled and every physical line
of the raw content matches a configured pattern for the file's classified
language, the stripped content consists only of the original blank lines —
so it is whitespace-only (empty when there are none) and the file is
omitted.  (Hypothesis: the configured patterns lie in the modelled regex
subset.) -/
theorem process_file_blank_skip (f : FileInput) (d : String)
    (m : List (String × String)) (cfg : FilteringConfig) :
    (isBlankStr (cleaned_for f d m cfg) = true → process_file f d m cfg = none)
    ∧ (cfg.clean_comments = true →
       (∀ p ∈ patsOf cfg.comment_patterns (get_language_for_file f.name d m),
          (compileRegex p).isSome = true) →
       ((splitNl f.content.data).all
          (fun l => (patsOf cfg.comment_patterns (get_language_for_file f.name d m)).any
            (fun p => reMatchStr p l)) = true) →
       isBlankStr (cleaned_for f d m cfg) = true ∧ process_file f d m cfg = none) := by
  have hskip : isBlankStr (cleaned_for f d m cfg) = true → process_file f d m cfg = none := by
    intro hb
    unfold process_file
    by_cases h0 : f.fexists = false
    · rw [if_pos h0]
    · rw [if_neg h0]
      by_cases h1 : (cfg.exclude_files && should_exclude_file f.name cfg.exclude_patterns) = true
      · rw [if_pos h1]
      · rw [if_neg h1, if_pos hb]
  refine ⟨hskip, ?_⟩
  intro hcc hv hall
  have hblank : isBlankStr (cleaned_for f d m cfg) = true := by
    by_cases hp : patsOf cfg.comment_patterns (get_language_for_file f.name d m) = []
    · exfalso
      cases hs : splitNl f.content.data with
      | nil => exact splitNl_ne_nil _ hs
      | cons l ls =>
        rw [List.all_eq_true] at hall
        have := hall l (hs ▸ List.mem_cons_self l ls)
        rw [hp] at this
        simp at this
    · have h0 : cfg.comment_patterns ≠ [] := by
        intro hnil
        exact hp (by simp [patsOf, dictGet, hnil])
      have hcl : clean_content f.content (get_language_for_file f.name d m)
          cfg.comment_patterns
          = ⟨joinNl ((splitNl f.content.data).filter
              (keepLine (patsOf cfg.comment_patterns (get_language_for_file f.name d m))))⟩ := by
        simp only [clean_content, if_neg h0]
        rw [if_neg hp, cleanLoop_eq_filter]
      have hkept : ∀ l ∈ (splitNl f.content.data).filter
          (keepLine (patsOf cfg.comment_patterns (get_language_for_file f.name d m))),
          isBlank l = true := by
        intro l hl
        have hmem := List.mem_of_mem_filter hl
        have hkeep := List.of_mem_filter hl
        rw [List.all_eq_true] at hall
        have hmatch := hall l hmem
        simp only [keepLine, hmatch] at hkeep
        simpa using hkeep
      have : isBlank (joinNl ((splitNl f.content.data).filter
          (keepLine (patsOf cfg.comment_patterns
            (get_language_for_file f.name d m))))) = true :=
        joinNl_all_blank _ hkept
      unfold cleaned_for
      rw [if_pos hcc, hcl]
      exact this
  exact ⟨hblank, hskip hblank⟩

/-- Witness for `process_file_blank_skip`: a Python file whose content is a
single comment line is stripped to empty and omitted. -/
theorem process_file_blank_skip_wit :
    isBlankStr (cleaned_for ⟨"a.py", true, "# only a comment", some "a.py"⟩ "text"
      get_default_language_mappings
      ⟨true, true, get_default_exclude_patterns, get_default_comment_patterns⟩) = true
    ∧ process_file ⟨"a.py", true, "# only a comment", some "a.py"⟩ "text"
      get_default_language_mappings
      ⟨true, true, get_default_exclude_patterns, get_default_comment_patterns⟩ = none :=
  (process_file_blank_skip ⟨"a.py", true, "# only a comment", some "a.py"⟩ "text"
    get_default_language_mappings
    ⟨true, true, get_default_exclude_patterns, get_default_comment_patterns⟩).2
    rfl (by decide) (by decide)

/-- C8: for an existing, non-excluded file whose `relative_to(project_root)`
computation fails (the file is not under the configured project root —
modelled by `relPath = none`, the caught per-file error), `process_file`
writes nothing to the output document. -/
theorem relative_path_error_skips (f : FileInput) (d : String)
    (m : List (String × String)) (cfg : FilteringConfig)
    (hex : f.fexists = true)
    (hne : (cfg.exclude_files && should_exclude_file f.name cfg.exclude_patterns) = false)
    (hrel : f.relPath = none) :
    process_file f d m cfg = none := by
  unfold process_file
  rw [if_neg (by rw [hex]; simp), if_neg (by rw [hne]; simp)]
  by_cases hb : isBlankStr (cleaned_for f d m cfg) = true
  · rw [if_pos hb]
  · rw [if_neg hb, hrel]

/-- Witness for `relative_path_error_skips`: an existing, non-excluded file
outside the project root yields no section. -/
theorem relative_path_error_skips_wit :
    process_file ⟨"a.py", true, "x = 1", none⟩ "text" [] ⟨false, false, [], []⟩ = none :=
  relative_path_error_skips ⟨"a.py", true, "x = 1", none⟩ "text" []
    ⟨false, false, [], []⟩ rfl rfl rfl

/-- C9: `process_file` skips blank (empty or whitespace-only) raw content
even when comment cleaning is disabled — the emptiness check runs after the
optional stripping step regardless of the flag — and consequently no section
it ever emits has blank content. -/
theorem process_file_nonblank_sections (f : FileInput) (d : String)
    (m : List (String × String)) (cfg : FilteringConfig) :
    (cfg.clean_comments = false → isBlankStr f.content = true →
      process_file f d m cfg = none)
    ∧ (∀ sec : OutSection, process_file f d m cfg = some sec →
        isBlankStr sec.content = false) := by
  constructor
  · intro hcc hb
    have hcl : cleaned_for f d m cfg = f.content := by
      unfold cleaned_for
      rw [hcc]
      simp
    unfold process_file
    by_cases h0 : f.fexists = false
    · rw [if_pos h0]
    · rw [if_neg h0]
      by_cases h1 : (cfg.exclude_files && should_exclude_file f.name cfg.exclude_patterns) = true
      · rw [if_pos h1]
      · rw [if_neg h1, if_pos (by rw [hcl]; exact hb)]
  · intro sec hsec
    unfold process_file at hsec
    by_cases h0 : f.fexists = false
    · rw [if_pos h0] at hsec
      exact absurd hsec (by simp)
    · rw [if_neg h0] at hsec
      by_cases h1 : (cfg.exclude_files && should_exclude_file f.name cfg.exclude_patterns) = true
      · rw [if_pos h1] at hsec
        exact absurd hsec (by simp)
      · rw [if_neg h1] at hsec
        by_cases hb : isBlankStr (cleaned_for f d m cfg) = true
        · rw [if_pos hb] at hsec
          exact absurd hsec (by simp)
        · rw [if_neg hb] at hsec
          cases hrel : f.relPath with
          | none =>
            rw [hrel] at hsec
            exact absurd hsec (by simp)
          | some rel =>
            rw [hrel] at hsec
            have : sec = ⟨rel, get_language_for_file f.name d m, cleaned_for f d m cfg⟩ :=
              (Option.some_inj.mp hsec).symm
            rw [this]
            simpa using hb

/-- Witness for `process_file_nonblank_sections`: blank raw content with
cleaning disabled yields no section, and an emitted section has non-blank
content. -/
theorem process_file_nonblank_sections_wit :
    process_file ⟨"a.py", true, "  \n ", some "a.py"⟩ "text" [] ⟨false, false, [], []⟩ = none
    ∧ isBlankStr ((⟨"a.py", "text", "x = 1"⟩ : OutSection).content) = false :=
  ⟨(process_file_nonblank_sections ⟨"a.py", true, "  \n ", some "a.py"⟩ "text" []
      ⟨false, false, [], []⟩).1 rfl (by decide),
   (process_file_nonblank_sections ⟨"a.py", true, "x = 1", some "a.py"⟩ "text" []
      ⟨false, false, [], []⟩).2 ⟨"a.py", "text", "x = 1"⟩ (by rfl)⟩

/-- C6: when the `[ExcludePatterns]` section is present and non-empty, the
exclude-pattern list returned by `read_filtering_config` is exactly the
section's values in order, fully replacing the built-in defaults; when the
section is absent or empty, the built-in default list is used unchanged. -/
theorem read_filtering_exclude_spec (ini : ParsedIni) (fc : FilteringConfig)
    (h : read_filtering_config ini = some fc) :
    (∀ items, ini.excludePatterns = some items → items ≠ [] →
      fc.exclude_patterns = items.map (fun kv => kv.2))
    ∧ ((ini.excludePatterns = none ∨ ini.excludePatterns = some []) →
      fc.exclude_patterns = get_default_exclude_patterns) := by
  unfold read_filtering_config at h
  cases hfl : (match ini.filtering with
    | none => some (true, true)
    | some items =>
      match getbooleanD items "exclude_files" true,
            getbooleanD items "clean_comments" true with
      | some ef, some cc => some (ef, cc)
      | _, _ => none : Option (Bool × Bool)) with
  | none =>
    rw [hfl] at h
    exact absurd h (by simp)
  | some fl =>
    rw [hfl] at h
    simp only [Option.some_inj] at h
    constructor
    · intro items hitems hne
      rw [hitems] at h
      have hmap : items.map (fun kv => kv.2) ≠ [] := by
        intro hnil
        exact hne (List.map_eq_nil_iff.mp hnil)
      rw [← h]
      show (if items.map (fun kv => kv.2) = [] then get_default_exclude_patterns
        else items.map (fun kv => kv.2)) = items.map (fun kv => kv.2)
      rw [if_neg hmap]
    · intro hcase
      rcases hcase with hnone | hempty
      · rw [hnone] at h
        rw [← h]
      · rw [hempty] at h
        rw [← h]
        simp

/-- Witness for `read_filtering_exclude_spec`: a non-empty
`[ExcludePatterns]` section replaces the defaults; an absent section leaves
them unchanged. -/
theorem read_filtering_exclude_spec_wit :
    (⟨true, true, ["custom1", "custom2"], get_default_comment_patterns⟩
        : FilteringConfig).exclude_patterns = ["custom1", "custom2"]
    ∧ (⟨true, true, get_default_exclude_patterns, get_default_comment_patterns⟩
        : FilteringConfig).exclude_patterns = get_default_exclude_patterns :=
  ⟨(read_filtering_exclude_spec
      ⟨true, [], none, none, some [("p1", "custom1"), ("p2", "custom2")], none⟩
      ⟨true, true, ["custom1", "custom2"], get_default_comment_patterns⟩ rfl).1
      [("p1", "custom1"), ("p2", "custom2")] rfl (by decide),
   (read_filtering_exclude_spec
      ⟨true, [], none, none, none, none⟩
      ⟨true, true, get_default_exclude_patterns, get_default_comment_patterns⟩ rfl).2
      (Or.inl rfl)⟩

/-- C7: when the configuration file lacks a `[Settings]` section (and the
project directory, `config.ini` and `files.txt` all exist, so the run gets
that far), `read_ini_config` fails with a configuration error, and `main`
exits with code 1 having never opened the output document (no sections, no
output file). -/
theorem missing_settings_aborts (env : Env)
    (h1 : env.projectDirExists = true) (h2 : env.configExists = true)
    (h3 : env.fileListExists = true) (h4 : env.ini.hasSettings = false) :
    (∃ msg, read_ini_config env.ini env.home = .error msg)
    ∧ mainRun env = ⟨1, false, []⟩ := by
  have herr : read_ini_config env.ini env.home
      = .error "Missing Settings section in config.ini file" := by
    unfold read_ini_config
    rw [if_pos h4]
  refine ⟨⟨_, herr⟩, ?_⟩
  unfold mainRun
  rw [if_neg (by rw [h1]; simp), if_neg (by rw [h2]; simp), if_neg (by rw [h3]; simp), herr]

/-- Witness for `missing_settings_aborts` at a concrete environment. -/
theorem missing_settings_aborts_wit :
    mainRun ⟨true, true, true, ⟨false, [], none, none, none, none⟩, "a.py\n", "/home/u",
      none, true, fun _ => .missing⟩ = ⟨1, false, []⟩ :=
  (missing_settings_aborts ⟨true, true, true, ⟨false, [], none, none, none, none⟩,
    "a.py\n", "/home/u", none, true, fun _ => .missing⟩ rfl rfl rfl rfl).2
